import Mathlib

/-!
Shallow embedding of the FunctionalPlus search header
(`src/include/fplus/search.h`) over Lean lists.

Sequences (`Container`) are embedded as `List α`, the `maybe` optional
type as `Option`, indices (`std::size_t`) as `Nat`, and unary predicates
as `α → Bool`.  Each definition below mirrors the corresponding C++
function from the source; the external collaborators the header consumes
(`lift`, `is_equal`, `bind_1st_of_2`, `reverse`, `size_of_cont`) are
modelled from the specification's §6 contracts since their code is not
part of the given sources (`reverse` and `size_of_cont` are taken as
`List.reverse` and `List.length`).
-/

namespace fplus

/-- Modelled from the spec: the Optional Algebra's "lift" combinator (§6):
given a pure unary function `f : A → B` and an optional `A`, return an
optional `B` that is empty iff the input was empty, else holds `f(value)`.
The code of `maybe.h` is not under `src/`. -/
def lift {α β : Type _} (f : α → β) : Option α → Option β
  | none => none
  | some a => some (f a)

/-- Modelled from the spec: the Equality Predicate collaborator (§6):
`is_equal<T>(a, b)` is the boolean equality test on `T`. -/
def is_equal {α : Type _} [DecidableEq α] (a b : α) : Bool :=
  decide (a = b)

/-- Modelled from the spec: the Predicate Combinators collaborator (§6):
`bind_1st_of_2(binary_pred, fixed_value)` is the unary predicate testing
`binary_pred(fixed_value, x)`. -/
def bind_1st_of_2 {α β γ : Type _} (f : α → β → γ) (a : α) : β → γ :=
  fun b => f a b

/-- Embeds `find_first_by` (search.h, lines 21-30): `std::find_if` scans
forward and the first element satisfying the predicate is returned,
`nothing` if the scan reaches the end. -/
def find_first_by {α : Type _} (pred : α → Bool) : List α → Option α
  | [] => none
  | x :: xs => if pred x then some x else find_first_by pred xs

/-- Embeds `find_last_by` (search.h, lines 34-40): forward search on the
reversed sequence. -/
def find_last_by {α : Type _} (pred : α → Bool) (xs : List α) : Option α :=
  find_first_by pred xs.reverse

/-- Embeds `find_first_idx_by` (search.h, lines 44-53): the distance from
the beginning to the iterator returned by `std::find_if`, `nothing` when
the scan reaches the end. -/
def find_first_idx_by {α : Type _} (pred : α → Bool) : List α → Option Nat
  | [] => none
  | x :: xs =>
    if pred x then some 0
    else Option.map (· + 1) (find_first_idx_by pred xs)

/-- Embeds `find_last_idx_by` (search.h, lines 57-67): the first-match
index in the reversed sequence, remapped through `lift` by
`idx ↦ size_of_cont(xs) - (idx + 1)`. -/
def find_last_idx_by {α : Type _} (pred : α → Bool) (xs : List α) : Option Nat :=
  lift (fun idx => xs.length - (idx + 1)) (find_first_idx_by pred xs.reverse)

/-- Embeds `find_first_idx` (search.h, lines 71-78): `find_first_idx_by`
with the predicate `bind_1st_of_2(is_equal, x)`. -/
def find_first_idx {α : Type _} [DecidableEq α] (x : α) (xs : List α) : Option Nat :=
  find_first_idx_by (bind_1st_of_2 is_equal x) xs

/-- Embeds `find_last_idx` (search.h, lines 82-89): `find_last_idx_by`
with the predicate `bind_1st_of_2(is_equal, x)`. -/
def find_last_idx {α : Type _} [DecidableEq α] (x : α) (xs : List α) : Option Nat :=
  find_last_idx_by (bind_1st_of_2 is_equal x) xs

/-- Embeds the loop of `find_all_idxs_by` (search.h, lines 92-107): a
single forward scan appending the running index whenever the predicate
holds; `idx` is the running counter. -/
def find_all_idxs_by_from {α : Type _} (p : α → Bool) : List α → Nat → List Nat
  | [], _ => []
  | x :: xs, idx =>
    if p x then idx :: find_all_idxs_by_from p xs (idx + 1)
    else find_all_idxs_by_from p xs (idx + 1)

/-- Embeds `find_all_idxs_by` (search.h, lines 92-107): the scan starts
with the index counter at 0. -/
def find_all_idxs_by {α : Type _} (p : α → Bool) (xs : List α) : List Nat :=
  find_all_idxs_by_from p xs 0

/-- Embeds `find_all_idxs_of` (search.h, lines 110-117). -/
def find_all_idxs_of {α : Type _} [DecidableEq α] (x : α) (xs : List α) : List Nat :=
  find_all_idxs_by (bind_1st_of_2 is_equal x) xs

/-- Embeds the `check_and_push` test of `find_all_instances_of`
(search.h, lines 133-140): `std::equal(itInBegin, itInEnd, begin(token))`
compares the `size(token)` elements of `xs` starting at `idx` with
`token` element-wise. -/
def check_instance {α : Type _} [DecidableEq α] (token xs : List α) (idx : Nat) : Bool :=
  decide ((xs.drop idx).take token.length = token)

/-- Embeds the scan loop of `find_all_instances_of` (search.h, lines
141-148): `while (idx != last_possible_idx) { check_and_push(); ++idx; }
check_and_push();`.  `fuel` is the number of remaining loop iterations,
`last_possible_idx - idx`; the `fuel = 0` case is the final
`check_and_push()` after the loop terminates. -/
def scan_instances {α : Type _} [DecidableEq α] (token xs : List α) : Nat → Nat → List Nat
  | idx, 0 => if check_instance token xs idx then [idx] else []
  | idx, fuel + 1 =>
    if check_instance token xs idx then idx :: scan_instances token xs (idx + 1) fuel
    else scan_instances token xs (idx + 1) fuel

/-- Embeds `find_all_instances_of` (search.h, lines 120-150): empty
result when the token is longer than the haystack, otherwise the scan
from index 0 with `last_possible_idx = size(xs) - size(token)`. -/
def find_all_instances_of {α : Type _} [DecidableEq α] (token xs : List α) : List Nat :=
  if token.length > xs.length then []
  else scan_instances token xs 0 (xs.length - token.length)

/-- Embeds the selection loop of `find_all_instances_of_non_overlapping`
(search.h, lines 161-167): an index is appended iff the result so far is
empty or its last element plus the token size is at most the index. -/
def select_non_overlapping (token_size : Nat) : List Nat → List Nat → List Nat
  | [], result => result
  | idx :: rest, result =>
    match result.getLast? with
    | none => select_non_overlapping token_size rest (result ++ [idx])
    | some b =>
      if b + token_size ≤ idx then select_non_overlapping token_size rest (result ++ [idx])
      else select_non_overlapping token_size rest result

/-- Embeds `find_all_instances_of_non_overlapping` (search.h, lines
153-169): the greedy filtering of the overlapping instances. -/
def find_all_instances_of_non_overlapping {α : Type _} [DecidableEq α]
    (token xs : List α) : List Nat :=
  select_non_overlapping token.length (find_all_instances_of token xs) []

-- Sanity checks against the examples in the source's comments.
example : find_first_by (fun n => n % 2 = 0) [1, 3, 4, 6, 9] = some 4 := by decide
example : find_last_by (fun n => n % 2 = 0) [1, 3, 4, 6, 9] = some 6 := by decide
example : find_first_idx_by (fun n => n % 2 = 0) [1, 3, 4, 6, 9] = some 2 := by decide
example : find_last_idx_by (fun n => n % 2 = 0) [1, 3, 4, 6, 9] = some 3 := by decide
example : find_first_idx 4 [1, 3, 4, 4, 9] = some 2 := by decide
example : find_last_idx 4 [1, 3, 4, 4, 9] = some 3 := by decide
example : find_all_idxs_by (fun n => n % 2 = 0) [1, 3, 4, 6, 9] = [2, 3] := by decide
example : find_all_idxs_of 4 [1, 3, 4, 4, 9] = [2, 3] := by decide
example : find_all_instances_of "haha".toList "oh, hahaha!".toList = [4, 6] := by decide
example : find_all_instances_of_non_overlapping "haha".toList "oh, hahaha!".toList = [4] := by
  decide

/-! ### Helper lemmas: first-match index search -/

theorem find_first_idx_by_eq_none {α : Type _} (p : α → Bool) (xs : List α) :
    find_first_idx_by p xs = none ↔ ∀ x ∈ xs, p x = false := by
  induction xs with
  | nil => simp [find_first_idx_by]
  | cons x t ih =>
    by_cases hx : p x
    · simp [find_first_idx_by, hx]
    · simp [find_first_idx_by, hx, ih]

theorem find_first_idx_by_eq_some {α : Type _} {p : α → Bool} {xs : List α} {i : Nat}
    (h : find_first_idx_by p xs = some i) :
    ∃ v, xs[i]? = some v ∧ p v = true ∧
      ∀ j, j < i → ∀ w, xs[j]? = some w → p w = false := by
  induction xs generalizing i with
  | nil => simp [find_first_idx_by] at h
  | cons x t ih =>
    by_cases hx : p x
    · simp [find_first_idx_by, hx] at h
      subst h
      exact ⟨x, by simp, hx, by intro j hj; omega⟩
    · simp [find_first_idx_by, hx] at h
      obtain ⟨k, hk, rfl⟩ := h
      obtain ⟨v, hv, hpv, hmin⟩ := ih hk
      refine ⟨v, by simpa using hv, hpv, ?_⟩
      intro j hj w hw
      cases j with
      | zero =>
        simp at hw
        subst hw
        simpa using hx
      | succ j' =>
        exact hmin j' (by omega) w (by simpa using hw)

theorem getElem?_some_lt_length {α : Type _} {xs : List α} {i : Nat} {v : α}
    (h : xs[i]? = some v) : i < xs.length := by
  rcases List.getElem?_eq_some.mp h with ⟨hlt, _⟩
  exact hlt

theorem find_last_idx_by_eq_none {α : Type _} (p : α → Bool) (xs : List α) :
    find_last_idx_by p xs = none ↔ ∀ x ∈ xs, p x = false := by
  have h1 : find_last_idx_by p xs = none ↔ find_first_idx_by p xs.reverse = none := by
    unfold find_last_idx_by
    cases find_first_idx_by p xs.reverse <;> simp [lift]
  rw [h1, find_first_idx_by_eq_none]
  constructor
  · intro h x hx; exact h x (List.mem_reverse.mpr hx)
  · intro h x hx; exact h x (List.mem_reverse.mp hx)

theorem find_last_idx_by_eq_some {α : Type _} {p : α → Bool} {xs : List α} {i : Nat}
    (h : find_last_idx_by p xs = some i) :
    i < xs.length ∧ (∃ v, xs[i]? = some v ∧ p v = true) ∧
      ∀ j, i < j → ∀ w, xs[j]? = some w → p w = false := by
  unfold find_last_idx_by at h
  cases hfr : find_first_idx_by p xs.reverse with
  | none => rw [hfr] at h; simp [lift] at h
  | some k =>
    rw [hfr] at h
    simp only [lift, Option.some.injEq] at h
    subst h
    obtain ⟨v, hv, hpv, hmin⟩ := find_first_idx_by_eq_some hfr
    have hk : k < xs.length := by simpa using getElem?_some_lt_length hv
    have hidx : xs.length - 1 - k = xs.length - (k + 1) := by omega
    refine ⟨by omega, ⟨v, ?_, hpv⟩, ?_⟩
    · have h2 : xs[xs.length - 1 - k]? = some v := by
        rw [← List.getElem?_reverse hk]; exact hv
      rwa [hidx] at h2
    · intro j hj w hw
      have hjlen : j < xs.length := getElem?_some_lt_length hw
      have h3 : xs.reverse[xs.length - 1 - j]? = some w := by
        rw [List.getElem?_reverse (by omega)]
        rw [show xs.length - 1 - (xs.length - 1 - j) = j by omega]
        exact hw
      exact hmin _ (by omega) w h3

theorem find_first_by_eq_none {α : Type _} (p : α → Bool) (xs : List α) :
    find_first_by p xs = none ↔ ∀ x ∈ xs, p x = false := by
  induction xs with
  | nil => simp [find_first_by]
  | cons x t ih =>
    by_cases hx : p x
    · simp [find_first_by, hx]
    · simp [find_first_by, hx, ih]

theorem find_first_by_eq_some {α : Type _} {p : α → Bool} {xs : List α} {v : α}
    (h : find_first_by p xs = some v) :
    p v = true ∧ ∃ k : Nat, xs[k]? = some v ∧
      ∀ j, j < k → ∀ w, xs[j]? = some w → p w = false := by
  induction xs with
  | nil => simp [find_first_by] at h
  | cons x t ih =>
    by_cases hx : p x
    · simp [find_first_by, hx] at h
      subst h
      exact ⟨hx, 0, by simp, by intro j hj; omega⟩
    · simp [find_first_by, hx] at h
      obtain ⟨hpv, k, hk, hmin⟩ := ih h
      refine ⟨hpv, k + 1, by simpa using hk, ?_⟩
      intro j hj w hw
      cases j with
      | zero =>
        simp at hw
        subst hw
        simpa using hx
      | succ j' =>
        exact hmin j' (by omega) w (by simpa using hw)

/-! ### Helper lemmas: all-indices scan -/

theorem mem_find_all_idxs_by_from {α : Type _} (p : α → Bool) :
    ∀ (xs : List α) (start i : Nat),
      i ∈ find_all_idxs_by_from p xs start → start ≤ i := by
  intro xs
  induction xs with
  | nil => intro start i hi; simp [find_all_idxs_by_from] at hi
  | cons x t ih =>
    intro start i hi
    by_cases hx : p x
    · simp only [find_all_idxs_by_from, if_pos hx, List.mem_cons] at hi
      rcases hi with rfl | hi
      · exact Nat.le_refl _
      · have := ih (start + 1) i hi
        omega
    · simp only [find_all_idxs_by_from, if_neg hx] at hi
      have := ih (start + 1) i hi
      omega

theorem pairwise_find_all_idxs_by_from {α : Type _} (p : α → Bool) :
    ∀ (xs : List α) (start : Nat),
      List.Pairwise (· < ·) (find_all_idxs_by_from p xs start) := by
  intro xs
  induction xs with
  | nil => intro start; simp [find_all_idxs_by_from]
  | cons x t ih =>
    intro start
    by_cases hx : p x
    · simp only [find_all_idxs_by_from, if_pos hx]
      refine List.Pairwise.cons ?_ (ih (start + 1))
      intro b hb
      have := mem_find_all_idxs_by_from p t (start + 1) b hb
      omega
    · simp only [find_all_idxs_by_from, if_neg hx]
      exact ih (start + 1)

theorem length_find_all_idxs_by_from {α : Type _} (p : α → Bool) :
    ∀ (xs : List α) (start : Nat),
      (find_all_idxs_by_from p xs start).length = xs.countP p := by
  intro xs
  induction xs with
  | nil => intro start; simp [find_all_idxs_by_from]
  | cons x t ih =>
    intro start
    by_cases hx : p x
    · simp [find_all_idxs_by_from, hx, ih, List.countP_cons]
    · simp [find_all_idxs_by_from, hx, ih, List.countP_cons]

/-! ### Helper lemmas: subsequence scan -/

theorem mem_scan_instances {α : Type _} [DecidableEq α] (token xs : List α) :
    ∀ (fuel start i : Nat),
      i ∈ scan_instances token xs start fuel ↔
        start ≤ i ∧ i ≤ start + fuel ∧ check_instance token xs i = true := by
  intro fuel
  induction fuel with
  | zero =>
    intro start i
    by_cases h : check_instance token xs start
    · simp only [scan_instances, if_pos h, List.mem_singleton]
      constructor
      · rintro rfl
        exact ⟨Nat.le_refl _, by omega, h⟩
      · rintro ⟨h1, h2, _⟩
        omega
    · simp only [scan_instances, if_neg h, List.not_mem_nil, false_iff]
      rintro ⟨h1, h2, h3⟩
      have hi : i = start := by omega
      subst hi
      exact h h3
  | succ fuel ih =>
    intro start i
    by_cases h : check_instance token xs start
    · simp only [scan_instances, if_pos h, List.mem_cons]
      rw [ih]
      constructor
      · rintro (rfl | ⟨h1, h2, h3⟩)
        · exact ⟨Nat.le_refl _, by omega, h⟩
        · exact ⟨by omega, by omega, h3⟩
      · rintro ⟨h1, h2, h3⟩
        by_cases hi : i = start
        · exact Or.inl hi
        · exact Or.inr ⟨by omega, by omega, h3⟩
    · simp only [scan_instances, if_neg h]
      rw [ih]
      constructor
      · rintro ⟨h1, h2, h3⟩
        exact ⟨by omega, by omega, h3⟩
      · rintro ⟨h1, h2, h3⟩
        have hi : i ≠ start := by
          rintro rfl
          exact h h3
        exact ⟨by omega, by omega, h3⟩

theorem pairwise_scan_instances {α : Type _} [DecidableEq α] (token xs : List α) :
    ∀ (fuel start : Nat), List.Pairwise (· < ·) (scan_instances token xs start fuel) := by
  intro fuel
  induction fuel with
  | zero =>
    intro start
    by_cases h : check_instance token xs start <;> simp [scan_instances, h]
  | succ fuel ih =>
    intro start
    by_cases h : check_instance token xs start
    · simp only [scan_instances, if_pos h]
      refine List.Pairwise.cons ?_ (ih (start + 1))
      intro b hb
      have := (mem_scan_instances token xs fuel (start + 1) b).mp hb
      omega
    · simp only [scan_instances, if_neg h]
      exact ih (start + 1)

theorem check_instance_nil_token {α : Type _} [DecidableEq α] (xs : List α) (i : Nat) :
    check_instance ([] : List α) xs i = true := by
  simp [check_instance]

theorem scan_instances_nil_token {α : Type _} [DecidableEq α] (xs : List α) :
    ∀ (fuel start : Nat),
      scan_instances ([] : List α) xs start fuel = List.range' start (fuel + 1) := by
  intro fuel
  induction fuel with
  | zero =>
    intro start
    simp [scan_instances, check_instance_nil_token]
  | succ fuel ih =>
    intro start
    simp only [scan_instances, check_instance_nil_token, if_true]
    rw [ih (start + 1), List.range'_succ start (fuel + 1) 1]

/-! ### Helper lemmas: non-overlapping selection -/

theorem select_cons_empty (t idx : Nat) (rest acc : List Nat) (h : acc.getLast? = none) :
    select_non_overlapping t (idx :: rest) acc =
      select_non_overlapping t rest (acc ++ [idx]) := by
  simp only [select_non_overlapping]
  rw [h]

theorem select_cons_keep (t idx : Nat) (rest acc : List Nat) (b : Nat)
    (h : acc.getLast? = some b) (hle : b + t ≤ idx) :
    select_non_overlapping t (idx :: rest) acc =
      select_non_overlapping t rest (acc ++ [idx]) := by
  simp only [select_non_overlapping]
  rw [h]
  simp only [if_pos hle]

theorem select_cons_skip (t idx : Nat) (rest acc : List Nat) (b : Nat)
    (h : acc.getLast? = some b) (hgt : ¬ b + t ≤ idx) :
    select_non_overlapping t (idx :: rest) acc =
      select_non_overlapping t rest acc := by
  simp only [select_non_overlapping]
  rw [h]
  simp only [if_neg hgt]

theorem mem_select_non_overlapping (t : Nat) :
    ∀ (idxs acc : List Nat) (i : Nat),
      i ∈ select_non_overlapping t idxs acc → i ∈ acc ∨ i ∈ idxs := by
  intro idxs
  induction idxs with
  | nil =>
    intro acc i hi
    exact Or.inl hi
  | cons idx rest ih =>
    intro acc i hi
    have step : ∀ h : i ∈ select_non_overlapping t rest (acc ++ [idx]),
        i ∈ acc ∨ i ∈ idx :: rest := by
      intro h
      rcases ih (acc ++ [idx]) i h with h1 | h1
      · rcases List.mem_append.mp h1 with h2 | h2
        · exact Or.inl h2
        · simp only [List.mem_singleton] at h2
          exact Or.inr (by simp [h2])
      · exact Or.inr (List.mem_cons_of_mem _ h1)
    cases hl : acc.getLast? with
    | none =>
      rw [select_cons_empty t idx rest acc hl] at hi
      exact step hi
    | some b =>
      by_cases hcmp : b + t ≤ idx
      · rw [select_cons_keep t idx rest acc b hl hcmp] at hi
        exact step hi
      · rw [select_cons_skip t idx rest acc b hl hcmp] at hi
        rcases ih acc i hi with h1 | h1
        · exact Or.inl h1
        · exact Or.inr (List.mem_cons_of_mem _ h1)

theorem chain_select_non_overlapping (t : Nat) :
    ∀ (idxs acc : List Nat),
      List.Chain' (fun a b => a + t ≤ b) acc →
      List.Chain' (fun a b => a + t ≤ b) (select_non_overlapping t idxs acc) := by
  intro idxs
  induction idxs with
  | nil =>
    intro acc h
    exact h
  | cons idx rest ih =>
    intro acc hacc
    cases hl : acc.getLast? with
    | none =>
      rw [select_cons_empty t idx rest acc hl]
      apply ih
      rw [List.getLast?_eq_none_iff.mp hl]
      simp
    | some b =>
      by_cases hcmp : b + t ≤ idx
      · rw [select_cons_keep t idx rest acc b hl hcmp]
        apply ih
        rw [List.chain'_append]
        refine ⟨hacc, List.chain'_singleton _, ?_⟩
        intro x hx y hy
        rw [hl] at hx
        simp only [Option.mem_def, Option.some_inj] at hx
        simp only [List.head?_cons, Option.mem_def, Option.some_inj] at hy
        subst hx
        subst hy
        exact hcmp
      · rw [select_cons_skip t idx rest acc b hl hcmp]
        exact ih acc hacc

theorem head_select_non_overlapping (t : Nat) :
    ∀ (idxs acc : List Nat), acc ≠ [] →
      (select_non_overlapping t idxs acc).head? = acc.head? := by
  intro idxs
  induction idxs with
  | nil =>
    intro acc _
    rfl
  | cons idx rest ih =>
    intro acc hne
    cases hl : acc.getLast? with
    | none => exact absurd (List.getLast?_eq_none_iff.mp hl) hne
    | some b =>
      by_cases hcmp : b + t ≤ idx
      · rw [select_cons_keep t idx rest acc b hl hcmp]
        rw [ih (acc ++ [idx]) (by simp)]
        cases acc with
        | nil => exact absurd rfl hne
        | cons a as => simp
      · rw [select_cons_skip t idx rest acc b hl hcmp]
        exact ih acc hne

/-! ### Claim theorems -/

/-- Claim C1: for every sequence `xs` and pure predicate `p`,
`find_first_idx_by(p, xs)` is empty iff no element of `xs` satisfies `p`,
and otherwise holds the smallest index `i` such that `p(xs[i])` holds. -/
theorem C1_find_first_idx_by_correct {α : Type _} (p : α → Bool) (xs : List α) :
    (find_first_idx_by p xs = none ↔ ∀ x ∈ xs, p x = false) ∧
    (∀ i, find_first_idx_by p xs = some i →
      i < xs.length ∧ (∃ v, xs[i]? = some v ∧ p v = true) ∧
      ∀ j, j < i → ∀ w, xs[j]? = some w → p w = false) := by
  refine ⟨find_first_idx_by_eq_none p xs, ?_⟩
  intro i h
  obtain ⟨v, hv, hpv, hmin⟩ := find_first_idx_by_eq_some h
  exact ⟨getElem?_some_lt_length hv, ⟨v, hv, hpv⟩, hmin⟩

/-- Witness for C1, at the source's example `is_even, [1, 3, 4, 6, 9]`. -/
theorem C1_witness :
    2 < ([1, 3, 4, 6, 9] : List Nat).length ∧
    (∃ v, ([1, 3, 4, 6, 9] : List Nat)[2]? = some v ∧ (fun n => n % 2 == 0) v = true) ∧
    ∀ j, j < 2 → ∀ w, ([1, 3, 4, 6, 9] : List Nat)[j]? = some w →
      (fun n => n % 2 == 0) w = false :=
  (C1_find_first_idx_by_correct (fun n => n % 2 == 0) [1, 3, 4, 6, 9]).2 2 (by decide)

/-- Claim C2: for every sequence `xs` and pure predicate `p`,
`find_last_idx_by(p, xs)` holds the largest index `i` with `p(xs[i])`, or
is empty when no element satisfies `p`; moreover it equals
`find_first_idx_by(p, reverse(xs))` remapped by `i ↦ size(xs) - (i + 1)`
applied through the `lift` combinator, so an empty result passes through
with no remapping performed. -/
theorem C2_find_last_idx_by_correct {α : Type _} (p : α → Bool) (xs : List α) :
    (find_last_idx_by p xs = none ↔ ∀ x ∈ xs, p x = false) ∧
    (∀ i, find_last_idx_by p xs = some i →
      i < xs.length ∧ (∃ v, xs[i]? = some v ∧ p v = true) ∧
      ∀ j, i < j → ∀ w, xs[j]? = some w → p w = false) ∧
    find_last_idx_by p xs =
      lift (fun idx => xs.length - (idx + 1)) (find_first_idx_by p xs.reverse) ∧
    lift (fun idx => xs.length - (idx + 1)) (none : Option Nat) = none :=
  ⟨find_last_idx_by_eq_none p xs, fun _ h => find_last_idx_by_eq_some h, rfl, rfl⟩

/-- Witness for C2, at the source's example `is_even, [1, 3, 4, 6, 9]`. -/
theorem C2_witness :
    3 < ([1, 3, 4, 6, 9] : List Nat).length ∧
    (∃ v, ([1, 3, 4, 6, 9] : List Nat)[3]? = some v ∧ (fun n => n % 2 == 0) v = true) ∧
    ∀ j, 3 < j → ∀ w, ([1, 3, 4, 6, 9] : List Nat)[j]? = some w →
      (fun n => n % 2 == 0) w = false :=
  (C2_find_last_idx_by_correct (fun n => n % 2 == 0) [1, 3, 4, 6, 9]).2.1 3 (by decide)

/-- Claim C7: for every sequence `xs` and pure predicate `p`,
`find_last_by(pred, xs)` equals `find_first_by(pred, reverse(xs))`;
consequently it holds the last element of `xs` (in original order)
satisfying the predicate, or is empty when none does. -/
theorem C7_find_last_by_correct {α : Type _} (p : α → Bool) (xs : List α) :
    find_last_by p xs = find_first_by p xs.reverse ∧
    (find_last_by p xs = none ↔ ∀ x ∈ xs, p x = false) ∧
    ∀ v, find_last_by p xs = some v → p v = true ∧
      ∃ i : Nat, xs[i]? = some v ∧ ∀ j, i < j → ∀ w, xs[j]? = some w → p w = false := by
  refine ⟨rfl, ?_, ?_⟩
  · unfold find_last_by
    rw [find_first_by_eq_none]
    constructor
    · intro h x hx; exact h x (List.mem_reverse.mpr hx)
    · intro h x hx; exact h x (List.mem_reverse.mp hx)
  · intro v h
    obtain ⟨hpv, k, hk, hmin⟩ := find_first_by_eq_some h
    have hk' : k < xs.length := by simpa using getElem?_some_lt_length hk
    refine ⟨hpv, xs.length - 1 - k, ?_, ?_⟩
    · rw [← List.getElem?_reverse hk']
      exact hk
    · intro j hj w hw
      have hjlen : j < xs.length := getElem?_some_lt_length hw
      have h1 : xs.reverse[xs.length - 1 - j]? = some w := by
        rw [List.getElem?_reverse (by omega)]
        rw [show xs.length - 1 - (xs.length - 1 - j) = j by omega]
        exact hw
      exact hmin _ (by omega) w h1

/-- Witness for C7, at the source's example `is_even, [1, 3, 4, 6, 9]`. -/
theorem C7_witness :
    (fun n => n % 2 == 0) 6 = true ∧
    ∃ i : Nat, ([1, 3, 4, 6, 9] : List Nat)[i]? = some 6 ∧
      ∀ j, i < j → ∀ w, ([1, 3, 4, 6, 9] : List Nat)[j]? = some w →
        (fun n => n % 2 == 0) w = false :=
  (C7_find_last_by_correct (fun n => n % 2 == 0) [1, 3, 4, 6, 9]).2.2 6 (by decide)

/-- Counterexample to Claim C9 as stated: for the empty sequence, any
predicate vacuously matches every element, yet the first-match and
last-match results (both the element and the index versions) coincide —
all four are empty — while the sequence does not have exactly one
element. -/
theorem C9_counterexample :
    (∀ x ∈ ([] : List Nat), (fun _ => true) x = true) ∧
    find_first_by (fun _ => true) ([] : List Nat) =
      find_last_by (fun _ => true) ([] : List Nat) ∧
    find_first_idx_by (fun _ => true) ([] : List Nat) =
      find_last_idx_by (fun _ => true) ([] : List Nat) ∧
    ¬ ([] : List Nat).length = 1 := by
  refine ⟨by simp, rfl, rfl, by simp⟩

/-- Claim C9 (amended): for every sequence `xs` and a predicate that
matches every element of `xs`, the first-match and last-match results
(`find_first_by` vs `find_last_by`, and `find_first_idx_by` vs
`find_last_idx_by`) coincide only when `xs` has at most one element (the
empty sequence also yields coinciding — all empty — results). -/
theorem C9_first_last_coincide_amended {α : Type _} (p : α → Bool) (xs : List α)
    (hall : ∀ x ∈ xs, p x = true)
    (_hval : find_first_by p xs = find_last_by p xs)
    (hidx : find_first_idx_by p xs = find_last_idx_by p xs) :
    xs.length ≤ 1 := by
  cases hxs : xs with
  | nil => simp
  | cons x t =>
    subst hxs
    have hx : p x = true := hall x (by simp)
    have hfirst : find_first_idx_by p (x :: t) = some 0 := by
      simp [find_first_idx_by, hx]
    cases hr : (x :: t).reverse with
    | nil => simp at hr
    | cons z u =>
      have hz : p z = true := by
        have : z ∈ (x :: t).reverse := by rw [hr]; simp
        exact hall z (List.mem_reverse.mp this)
      have hlast : find_last_idx_by p (x :: t) = some ((x :: t).length - 1) := by
        unfold find_last_idx_by
        rw [hr]
        simp [find_first_idx_by, hz, lift]
      rw [hfirst, hlast] at hidx
      have h0 : 0 = (x :: t).length - 1 := Option.some_inj.mp hidx
      simp only [List.length_cons] at h0 ⊢
      omega

/-- Witness for the amended C9, at the all-matching predicate on the
one-element sequence `[5]`. -/
theorem C9_witness :
    (∀ x ∈ ([5] : List Nat), (fun _ => true) x = true) ∧ ([5] : List Nat).length ≤ 1 :=
  ⟨by simp, C9_first_last_coincide_amended (fun _ => true) [5] (by simp) (by decide) (by decide)⟩

/-- Claim C5: for every sequence `xs` and pure predicate `p`,
`find_all_idxs_by(p, xs)` returns indices in strictly increasing order,
its length equals the number of elements of `xs` satisfying `p`, and on
an empty input it returns an empty result container rather than
signalling an error. -/
theorem C5_find_all_idxs_by_correct {α : Type _} (p : α → Bool) (xs : List α) :
    List.Pairwise (· < ·) (find_all_idxs_by p xs) ∧
    (find_all_idxs_by p xs).length = xs.countP p ∧
    find_all_idxs_by p ([] : List α) = [] :=
  ⟨pairwise_find_all_idxs_by_from p xs 0, length_find_all_idxs_by_from p xs 0, rfl⟩

/-- Claim C6: for every token and haystack `xs` with
`size(token) > size(xs)`, `find_all_instances_of(token, xs)` returns an
empty result container immediately, without scanning and without
signalling an error. -/
theorem C6_long_token_empty_result {α : Type _} [DecidableEq α] (token xs : List α)
    (h : xs.length < token.length) :
    find_all_instances_of token xs = [] := by
  unfold find_all_instances_of
  rw [if_pos h]

/-- Witness for C6, a two-element token over a one-element haystack. -/
theorem C6_witness :
    ([1] : List Nat).length < ([1, 2] : List Nat).length ∧
    find_all_instances_of ([1, 2] : List Nat) [1] = [] :=
  ⟨by decide, C6_long_token_empty_result [1, 2] [1] (by decide)⟩

/-- Claim C8: for every value `x` and sequence `xs`, `find_first_idx(x, xs)`
and `find_last_idx(x, xs)` equal `find_first_idx_by` and
`find_last_idx_by` applied with the predicate "equals x" built by
partially applying the equality test; in particular
`find_first_idx(4, [1,3,4,4,9]) == Just(2)` and
`find_last_idx(4, [1,3,4,4,9]) == Just(3)`. -/
theorem C8_find_idx_specializations {α : Type _} [DecidableEq α] (x : α) (xs : List α) :
    find_first_idx x xs = find_first_idx_by (bind_1st_of_2 is_equal x) xs ∧
    find_last_idx x xs = find_last_idx_by (bind_1st_of_2 is_equal x) xs ∧
    find_first_idx 4 ([1, 3, 4, 4, 9] : List Nat) = some 2 ∧
    find_last_idx 4 ([1, 3, 4, 4, 9] : List Nat) = some 3 :=
  ⟨rfl, rfl, by decide, by decide⟩

/-- Claim C3: for every token sequence and haystack sequence `xs` with
`size(token) <= size(xs)` and `size(token) > 0`,
`find_all_instances_of(token, xs)` returns exactly the set of start
indices `i` in `[0, size(xs) - size(token)]` such that the sub-range
`xs[i .. i+size(token))` is element-wise equal to `token`, listed in
ascending (left-to-right) order and including overlapping matches; in
particular `find_all_instances_of("haha", "oh, hahaha!") == [4, 6]`. -/
theorem C3_find_all_instances_of_correct {α : Type _} [DecidableEq α] (token xs : List α)
    (_hpos : 0 < token.length) (hle : token.length ≤ xs.length) :
    (∀ i, i ∈ find_all_instances_of token xs ↔
      i ≤ xs.length - token.length ∧ (xs.drop i).take token.length = token) ∧
    List.Pairwise (· < ·) (find_all_instances_of token xs) ∧
    find_all_instances_of "haha".toList "oh, hahaha!".toList = [4, 6] := by
  have hnot : ¬ token.length > xs.length := not_lt.mpr hle
  refine ⟨?_, ?_, by decide⟩
  · intro i
    unfold find_all_instances_of
    rw [if_neg hnot, mem_scan_instances]
    unfold check_instance
    constructor
    · rintro ⟨h1, h2, h3⟩
      exact ⟨by omega, of_decide_eq_true h3⟩
    · rintro ⟨h1, h2⟩
      exact ⟨Nat.zero_le _, by omega, decide_eq_true h2⟩
  · unfold find_all_instances_of
    rw [if_neg hnot]
    exact pairwise_scan_instances token xs _ 0

/-- Witness for C3, at the token `[1, 1]` inside the haystack `[1, 1, 1]`
(overlapping matches at indices 0 and 1). -/
theorem C3_witness :
    (∀ i, i ∈ find_all_instances_of ([1, 1] : List Nat) [1, 1, 1] ↔
      i ≤ ([1, 1, 1] : List Nat).length - ([1, 1] : List Nat).length ∧
        (([1, 1, 1] : List Nat).drop i).take ([1, 1] : List Nat).length = [1, 1]) ∧
    List.Pairwise (· < ·) (find_all_instances_of ([1, 1] : List Nat) [1, 1, 1]) ∧
    find_all_instances_of "haha".toList "oh, hahaha!".toList = [4, 6] :=
  C3_find_all_instances_of_correct [1, 1] [1, 1, 1] (by decide) (by decide)

/-- Claim C10: for every haystack `xs` and a zero-length token,
`find_all_instances_of(token, xs)` returns every index in
`[0, size(xs)]` inclusive — `size(xs) + 1` matches, each by vacuous
element-wise equality of empty ranges — because the candidate at
position `size(xs) - size(token)` is checked exactly once after the scan
loop terminates. -/
theorem C10_nil_token_matches_everywhere {α : Type _} [DecidableEq α] (xs : List α) :
    find_all_instances_of ([] : List α) xs = List.range (xs.length + 1) ∧
    (find_all_instances_of ([] : List α) xs).length = xs.length + 1 := by
  have h : find_all_instances_of ([] : List α) xs = List.range (xs.length + 1) := by
    unfold find_all_instances_of
    rw [if_neg (by simp), scan_instances_nil_token, List.range_eq_range']
    simp
  exact ⟨h, by rw [h, List.length_range]⟩

/-- Claim C4: for every token and haystack `xs`, the result
`ys = find_all_instances_of_non_overlapping(token, xs)` is the
leftmost-greedy selection over the ascending overlapping-match list: the
first overlapping match (if any) is always kept, every pair of
consecutive kept indices `a, b` satisfies `b >= a + size(token)`, and
every index in `ys` also appears in `find_all_instances_of(token, xs)`. -/
theorem C4_non_overlapping_correct {α : Type _} [DecidableEq α] (token xs : List α) :
    (find_all_instances_of token xs ≠ [] →
      (find_all_instances_of_non_overlapping token xs).head? =
        (find_all_instances_of token xs).head?) ∧
    List.Chain' (fun a b => a + token.length ≤ b)
      (find_all_instances_of_non_overlapping token xs) ∧
    ∀ i ∈ find_all_instances_of_non_overlapping token xs,
      i ∈ find_all_instances_of token xs := by
  refine ⟨?_, ?_, ?_⟩
  · intro hne
    unfold find_all_instances_of_non_overlapping
    cases hov : find_all_instances_of token xs with
    | nil => exact absurd hov hne
    | cons a rest =>
      rw [select_cons_empty token.length a rest [] rfl]
      rw [head_select_non_overlapping token.length rest ([] ++ [a]) (by simp)]
      simp
  · unfold find_all_instances_of_non_overlapping
    exact chain_select_non_overlapping token.length _ [] List.chain'_nil
  · intro i hi
    unfold find_all_instances_of_non_overlapping at hi
    rcases mem_select_non_overlapping token.length _ [] i hi with h | h
    · simp at h
    · exact h

/-- Witness for C4, at the token `[1, 1]` inside `[1, 1, 1]`: the
overlapping matches are `[0, 1]`, the kept ones `[0]`. -/
theorem C4_witness :
    find_all_instances_of ([1, 1] : List Nat) [1, 1, 1] ≠ [] ∧
    (find_all_instances_of_non_overlapping ([1, 1] : List Nat) [1, 1, 1]).head? =
      (find_all_instances_of ([1, 1] : List Nat) [1, 1, 1]).head? ∧
    (0 : Nat) ∈ find_all_instances_of ([1, 1] : List Nat) [1, 1, 1] :=
  ⟨by decide,
   (C4_non_overlapping_correct [1, 1] [1, 1, 1]).1 (by decide),
   (C4_non_overlapping_correct [1, 1] [1, 1, 1]).2.2 0 (by decide)⟩

end fplus
